import Mathlib

/-!
# CarND-MPC-Project: the telemetry handler of `src/main.cpp`

A shallow embedding of the `onMessage` handler's telemetry branch: the waypoint
transform loop, the latency compensation ("state after delay"), and the
packaging of the optimizer's result into the `steer` message.

Conventions of the embedding.

* A C++ `double` is read as an element of a field `α`; the theorems take
  `α := ℝ`, with `cos`, `sin`, `atan` and `M_PI` read as `Real.cos`, `Real.sin`,
  `Real.arctan` and `Real.pi`.  Rounding is not modelled.
* The `<math.h>` functions reach the definitions through a record `Libm α`, so
  every definition is an ordinary computable function of its arguments.
* `std::vector<double>` and `Eigen::VectorXd` are lists.  `operator[]` is
  `vget`; an index past the end is undefined in the source and reads `0` here,
  and the theorems are stated for vectors on which every read is in range.
* `helpers.h` (`polyfit`, `polyeval`) and `MPC.h` (`MPC::Solve`) live outside
  `main.cpp`: `polyeval` and `polyfit` are modelled from the specification, the
  numerical least-squares solve and `MPC::Solve` are parameters.
* A failure of `polyfit` is a value `Except.error`; `main.cpp` contains no
  `try`/`catch`, so in `onMessage` it becomes the outcome `uncaught`, distinct
  from a normal return without a send (`nothingSent`).
* `specPolyDeriv` and `specModelStep` are not code: they write down the
  dynamics equations of section 4.4 of the specification, against which the
  latency compensation is compared.
-/

namespace MPCProject

/-! ## Data model -/

/-- The `<math.h>` names the handler uses. -/
structure Libm (α : Type) where
  cos : α → α
  sin : α → α
  atan : α → α
  M_PI : α

/-- The fields of `j[1]` read at lines 47-54. -/
structure Telemetry (α : Type) where
  ptsx : List α
  ptsy : List α
  x : α
  y : α
  psi : α
  speed : α
  steering_angle : α
  throttle : α

/-- The fields written to `msgJson` at lines 113-150. -/
structure SteerMsg (α : Type) where
  steering_angle : α
  throttle : α
  mpc_x : List α
  mpc_y : List α
  next_x : List α
  next_y : List α

/-- How a cycle can end without a command. -/
inductive CycleError where
  | underdeterminedFit
deriving DecidableEq, Repr

section Defs

variable {α : Type} [Field α]

/-- Element access `v[i]` / `v(i)` on a vector. -/
def vget (v : List α) (i : Nat) : α := v.getD i 0

/-! ## Lines 22-25 -/

/-- Source: `constexpr double pi() { return M_PI; }` -/
def pi (m : Libm α) : α := m.M_PI

/-- Source: `double deg2rad(double x) { return x * pi() / 180; }` -/
def deg2rad (m : Libm α) (x : α) : α := x * pi m / 180

/-- Source: `double rad2deg(double x) { return x * 180 / pi(); }` -/
def rad2deg (m : Libm α) (x : α) : α := x * 180 / pi m

/-! ## Lines 63-74: waypoint transform loop -/

/-- Body of the loop at lines 69-73 for one waypoint `(wx, wy) = (ptsx[i], ptsy[i])`:
the pair `(ptsx_transformed(i), ptsy_transformed(i))`. -/
def transformBody (m : Libm α) (px py psi wx wy : α) : α × α :=
  let dX := wx - px
  let dY := wy - py
  let minus_psi := 0 - psi
  (dX * m.cos minus_psi - dY * m.sin minus_psi,
   dX * m.sin minus_psi + dY * m.cos minus_psi)

/-- The loop `for (i = 0; i < n_waypoints; i++)` with `n_waypoints = ptsx.size()`:
entry `i` of the result is the loop body at `(ptsx[i], ptsy[i])`. -/
def transformLoop (m : Libm α) (ptsx ptsy : List α) (px py psi : α) : List (α × α) :=
  let n_waypoints := ptsx.length
  (List.range n_waypoints).map fun i => transformBody m px py psi (vget ptsx i) (vget ptsy i)

/-- The vector `ptsx_transformed` after the loop. -/
def ptsx_transformed (m : Libm α) (ptsx ptsy : List α) (px py psi : α) : List α :=
  (transformLoop m ptsx ptsy px py psi).map Prod.fst

/-- The vector `ptsy_transformed` after the loop. -/
def ptsy_transformed (m : Libm α) (ptsx ptsy : List α) (px py psi : α) : List α :=
  (transformLoop m ptsx ptsy px py psi).map Prod.snd

/-! ## Lines 79-102: latency compensation -/

/-- Source: `const int actuatorDelay = 100;` -/
def actuatorDelay : Nat := 100

/-- Source: `const double delay = actuatorDelay / 1000.0;` -/
def delay : α := (actuatorDelay : α) / 1000

/-- Source: `const double x0 = 0;` -/
def x0 : α := 0

/-- Source: `const double y0 = 0;` -/
def y0 : α := 0

/-- Source: `const double psi0 = 0;` -/
def psi0 : α := 0

/-- Source: `const double cte0 = coeffs[0];` -/
def cte0 (coeffs : List α) : α := vget coeffs 0

/-- Source: `const double epsi0 = -atan(coeffs[1]);` -/
def epsi0 (m : Libm α) (coeffs : List α) : α := -m.atan (vget coeffs 1)

/-- Source: `double x_delay = x0 + ( v * cos(psi0) * delay );` -/
def x_delay (m : Libm α) (v : α) : α := x0 + (v * m.cos psi0 * delay)

/-- Source: `double y_delay = y0 + ( v * sin(psi0) * delay );` -/
def y_delay (m : Libm α) (v : α) : α := y0 + (v * m.sin psi0 * delay)

/-- Source: `double psi_delay = psi0 - ( v * delta * delay / 2.67);` -/
def psi_delay (v delta : α) : α := psi0 - (v * delta * delay / 2.67)

/-- Source: `double v_delay = v + a * delay;` -/
def v_delay (v a : α) : α := v + a * delay

/-- Source: `double cte_delay = cte0 + ( v * sin(epsi0) * delay );` -/
def cte_delay (m : Libm α) (v : α) (coeffs : List α) : α :=
  cte0 coeffs + (v * m.sin (epsi0 m coeffs) * delay)

/-- Source: `double epsi_delay = epsi0 - ( v * atan(coeffs[1]) * delay / 2.67);` -/
def epsi_delay (m : Libm α) (v : α) (coeffs : List α) : α :=
  epsi0 m coeffs - (v * m.atan (vget coeffs 1) * delay / 2.67)

/-- Source: `state << x_delay, y_delay, psi_delay, v_delay, cte_delay, epsi_delay;` -/
def state (m : Libm α) (v delta a : α) (coeffs : List α) : List α :=
  [x_delay m v, y_delay m v, psi_delay v delta, v_delay v a,
   cte_delay m v coeffs, epsi_delay m v coeffs]

/-! ## `helpers.h` and `MPC.h` -/

/-- Modelled from the spec: `polyeval` of `helpers.h`, which lies outside
`main.cpp`.  Section 4.2: "Evaluation of the fitted polynomial at an arbitrary x
is a pure function"; section 3: "index 0 is the constant term".  The value is
the sum of `coeffs[i] * x^i` over all indices of `coeffs`. -/
def polyeval (coeffs : List α) (x : α) : α :=
  ((List.range coeffs.length).map fun i => vget coeffs i * x ^ i).sum

/-- Modelled from the spec: `polyfit` of `helpers.h`, which lies outside
`main.cpp`.  Section 4.2: "fit a least-squares polynomial ... Fails (reports an
error, does not crash) when the number of points is less than degree+1".  The
least-squares solve itself is the parameter `lsq`. -/
def polyfit (lsq : List α → List α → Nat → List α) (xvals yvals : List α) (order : Nat) :
    Except CycleError (List α) :=
  if xvals.length < order + 1 then Except.error CycleError.underdeterminedFit
  else Except.ok (lsq xvals yvals order)

/-! ## Section 4.4 of the specification: the optimizer's model -/

/-- Specification side: the derivative `f'(x)` of the reference polynomial
`f = polyeval coeffs`, the sum of `i * coeffs[i] * x^(i-1)`. -/
def specPolyDeriv (coeffs : List α) (x : α) : α :=
  ((List.range coeffs.length).map fun (i : Nat) => (i : α) * vget coeffs i * x ^ (i - 1)).sum

/-- Specification side: one step of the dynamics constraints of section 4.4
from the state `(x, y, psi, v, cte, epsi)` under the actuators `(delta, a)`,
in the order of the state vector:
`x + v*cos(psi)*dt`, `y + v*sin(psi)*dt`, `psi - v*delta/Lf*dt`, `v + a*dt`,
`f(x) - y + v*sin(epsi)*dt`, `psi - atan(f'(x)) - v*delta/Lf*dt`. -/
def specModelStep (m : Libm α) (coeffs : List α) (Lf dt x y psi v epsi delta a : α) :
    List α :=
  [x + v * m.cos psi * dt,
   y + v * m.sin psi * dt,
   psi - v * delta / Lf * dt,
   v + a * dt,
   polyeval coeffs x - y + v * m.sin epsi * dt,
   psi - m.atan (specPolyDeriv coeffs x) - v * delta / Lf * dt]

/-! ## Lines 104-150: packaging the result -/

/-- The layout of the solution vector after its two actuator entries: the
tail `x_1, y_1, ..., x_N, y_N` for the predicted points
`(x_1, y_1), ..., (x_N, y_N)`. -/
def interleave (pts : List (α × α)) : List α :=
  match pts with
  | [] => []
  | p :: rest => p.1 :: p.2 :: interleave rest

/-- Source: `double steer_value = vars[0]/deg2rad(25);` -/
def steer_value (m : Libm α) (vars : List α) : α := vget vars 0 / deg2rad m 25

/-- Source: `double throttle_value = vars[1];` -/
def throttle_value (vars : List α) : α := vget vars 1

/-- One pass of the loop body at lines 121-125 on the pair
`(mpc_x_vals, mpc_y_vals)`. -/
def mpcStep (vars : List α) (acc : List α × List α) (i : Nat) : List α × List α :=
  if i % 2 = 0 then (acc.1 ++ [vget vars i], acc.2)
  else (acc.1, acc.2 ++ [vget vars i])

/-- The loop `for ( int i = 2; i < vars.size(); i++ )` at lines 120-126,
starting from two empty vectors. -/
def mpcLoop (vars : List α) : List α × List α :=
  (List.range' 2 (vars.length - 2)).foldl (mpcStep vars) ([], [])

/-- The vector `mpc_x_vals` after the loop. -/
def mpc_x_vals (vars : List α) : List α := (mpcLoop vars).1

/-- The vector `mpc_y_vals` after the loop. -/
def mpc_y_vals (vars : List α) : List α := (mpcLoop vars).2

/-- Source: `double poly_inc = 2.5;` -/
def poly_inc : α := 2.5

/-- Source: `int num_points = 25;` -/
def num_points : Nat := 25

/-- The vector `next_x_vals` after the loop at lines 140-144:
`x = poly_inc * i` is pushed for `i = 0 .. num_points - 1`. -/
def next_x_vals : List α :=
  (List.range num_points).map fun (i : Nat) => poly_inc * (i : α)

/-- The vector `next_y_vals` after the loop at lines 140-144:
`polyeval(coeffs, x)` is pushed for `x = poly_inc * i`. -/
def next_y_vals (coeffs : List α) : List α :=
  (List.range num_points).map fun (i : Nat) => polyeval coeffs (poly_inc * (i : α))

/-- Lines 107-150: the message built from the fitted coefficients and the
optimizer's solution vector. -/
def package (m : Libm α) (coeffs vars : List α) : SteerMsg α :=
  { steering_angle := steer_value m vars
    throttle := throttle_value vars
    mpc_x := mpc_x_vals vars
    mpc_y := mpc_y_vals vars
    next_x := next_x_vals
    next_y := next_y_vals coeffs }

/-! ## Lines 45-165: the telemetry branch -/

/-- The telemetry branch of the handler.  `Solve` stands for `mpc.Solve`
(`MPC.h`), `lsq` for the least-squares solve inside
`polyfit`.  The result is the message sent as `42["steer", ...]`, or the
failure of `polyfit`, in which case nothing after line 77 is reached. -/
def onTelemetry (m : Libm α) (lsq : List α → List α → Nat → List α)
    (Solve : List α → List α → List α) (t : Telemetry α) :
    Except CycleError (SteerMsg α) := do
  let px := t.x
  let py := t.y
  let psi := t.psi
  let v := t.speed
  let delta := t.steering_angle
  let a := t.throttle
  let xs := ptsx_transformed m t.ptsx t.ptsy px py psi
  let ys := ptsy_transformed m t.ptsx t.ptsy px py psi
  let coeffs ← polyfit lsq xs ys 3
  let vars := Solve (state m v delta a coeffs) coeffs
  pure (package m coeffs vars)

/-! ## Lines 33-172: the handler -/

end Defs

/-! ## Latency compensation -/

section Latency

/-- The two readings of the heading-error line agree exactly when the speed is
zero or the steering equals `atan(coeffs[1])`. -/
theorem epsi_delay_eq_model_iff (v delta c0 c1 c2 c3 : ℝ) :
    epsi_delay (Libm.mk Real.cos Real.sin Real.arctan Real.pi) v [c0, c1, c2, c3]
        = -Real.arctan c1 - v * delta * 0.1 / 2.67
      ↔ v = 0 ∨ delta = Real.arctan c1 := by
  simp only [epsi_delay, epsi0, vget, delay, actuatorDelay, List.getD_cons_succ,
    List.getD_cons_zero]
  constructor
  · intro h
    have h2 : v * (delta - Real.arctan c1) = 0 := by
      norm_num at h
      linarith
    rcases mul_eq_zero.mp h2 with h3 | h3
    · exact Or.inl h3
    · exact Or.inr (by linarith)
  · rintro (h | h)
    · subst h; norm_num
    · subst h; norm_num

/-- C1 (evaluation at the failing input): at speed `v = 1`, steering
`delta = 0`, coefficients `[0, 1, 0, 0]`, the handler's `epsi_delay` is
`-pi/4 - (pi/4)*0.1/2.67`; the model equation
`psi - atan(f'(x)) - v*delta/Lf*dt` at `x = 0`, `psi = 0`, `dt = 0.1`,
`Lf = 2.67` gives `-atan(1) - 1*0*0.1/2.67`, and the two differ. -/
theorem epsi_delay_uses_atan_not_delta :
    epsi_delay (Libm.mk Real.cos Real.sin Real.arctan Real.pi) 1 [0, 1, 0, 0]
        = -(Real.pi / 4) - (Real.pi / 4) * 0.1 / 2.67
      ∧ vget (specModelStep (Libm.mk Real.cos Real.sin Real.arctan Real.pi) [0, 1, 0, 0]
            2.67 0.1 0 0 0 1 (-Real.arctan 1) 0 0) 5
        = -Real.arctan 1 - 1 * 0 * 0.1 / 2.67
      ∧ epsi_delay (Libm.mk Real.cos Real.sin Real.arctan Real.pi) 1 [0, 1, 0, 0]
        ≠ -Real.arctan 1 - 1 * 0 * 0.1 / 2.67 := by
  have hv : epsi_delay (Libm.mk Real.cos Real.sin Real.arctan Real.pi) 1 [0, 1, 0, 0]
      = -(Real.pi / 4) - (Real.pi / 4) * 0.1 / 2.67 := by
    simp only [epsi_delay, epsi0, vget, delay, actuatorDelay, List.getD_cons_succ,
      List.getD_cons_zero, Real.arctan_one]
    norm_num
  refine ⟨hv, ?_, ?_⟩
  · simp [specModelStep, specPolyDeriv, vget, List.range_succ]
  · rw [hv, Real.arctan_one]
    have hpi := Real.pi_pos
    intro h
    norm_num at h
    linarith

/-- C2: for every speed `v`, steering `delta`, throttle `a` and fitted
coefficients `[c0, c1, c2, c3]`, the handler's `x_delay`, `y_delay`,
`psi_delay`, `v_delay` and `cte_delay` are the first five components of one
step of the section 4.4 model from `(0, 0, 0, v, c0, -atan c1)` with
`dt = 0.1`, `Lf = 2.67`, that is `x_delay = 0.1*v`, `y_delay = 0`,
`psi_delay = -v*delta*0.1/2.67`, `v_delay = v + a*0.1`,
`cte_delay = f(0) - 0 + v*sin(epsi0)*0.1` with `f(0) = c0`. -/
theorem latency_remaining_components (v delta a c0 c1 c2 c3 : ℝ) :
    (state (Libm.mk Real.cos Real.sin Real.arctan Real.pi) v delta a [c0, c1, c2, c3]).take 5
        = (specModelStep (Libm.mk Real.cos Real.sin Real.arctan Real.pi) [c0, c1, c2, c3]
            2.67 0.1 0 0 0 v (-Real.arctan c1) delta a).take 5
      ∧ x_delay (Libm.mk Real.cos Real.sin Real.arctan Real.pi) v = 0.1 * v
      ∧ y_delay (Libm.mk Real.cos Real.sin Real.arctan Real.pi) v = 0
      ∧ psi_delay v delta = -v * delta * 0.1 / 2.67
      ∧ v_delay v a = v + a * 0.1
      ∧ cte_delay (Libm.mk Real.cos Real.sin Real.arctan Real.pi) v [c0, c1, c2, c3]
          = polyeval [c0, c1, c2, c3] 0 - 0 + v * Real.sin (-Real.arctan c1) * 0.1
      ∧ polyeval [c0, c1, c2, c3] 0 = c0 := by
  have hp : polyeval [c0, c1, c2, c3] (0 : ℝ) = c0 := by
    simp [polyeval, vget, List.range_succ]
  have hx : x_delay (Libm.mk Real.cos Real.sin Real.arctan Real.pi) v = 0.1 * v := by
    simp only [x_delay, x0, psi0, delay, actuatorDelay, Real.cos_zero]
    norm_num
    ring
  have hy : y_delay (Libm.mk Real.cos Real.sin Real.arctan Real.pi) v = 0 := by
    simp only [y_delay, y0, psi0, delay, actuatorDelay, Real.sin_zero]
    norm_num
  have hpsi : psi_delay v delta = -v * delta * 0.1 / 2.67 := by
    simp only [psi_delay, psi0, delay, actuatorDelay]
    norm_num
    ring
  have hvd : v_delay v a = v + a * 0.1 := by
    simp only [v_delay, delay, actuatorDelay]
    norm_num
  have hcte : cte_delay (Libm.mk Real.cos Real.sin Real.arctan Real.pi) v [c0, c1, c2, c3]
      = polyeval [c0, c1, c2, c3] 0 - 0 + v * Real.sin (-Real.arctan c1) * 0.1 := by
    rw [hp]
    simp only [cte_delay, cte0, epsi0, vget, delay, actuatorDelay, List.getD_cons_succ,
      List.getD_cons_zero]
    norm_num
  refine ⟨?_, hx, hy, hpsi, hvd, hcte, hp⟩
  simp only [state, specModelStep, List.take_succ_cons, List.take_zero, hx, hy, hpsi, hvd,
    hcte, Real.cos_zero, Real.sin_zero]
  norm_num
  ring_nf
  trivial

/-- C3: at measured speed `v = 0`, for every steering `delta`, throttle `a` and
fitted coefficients `[c0, c1, c2, c3]`, the compensated state is
`(0, 0, 0, a*0.1, c0, -atan c1)`: the input state `(0, 0, 0, 0, c0, -atan c1)`
in every component except the speed, which is `a*0.1`. -/
theorem latency_zero_speed (delta a c0 c1 c2 c3 : ℝ) :
    state (Libm.mk Real.cos Real.sin Real.arctan Real.pi) 0 delta a [c0, c1, c2, c3]
      = [0, 0, 0, a * 0.1, c0, -Real.arctan c1] := by
  simp only [state, x_delay, y_delay, psi_delay, v_delay, cte_delay, epsi_delay, x0, y0,
    psi0, cte0, epsi0, vget, delay, actuatorDelay, List.getD_cons_succ, List.getD_cons_zero]
  norm_num

end Latency

/-! ## Waypoint transform -/

section Transform

variable {α : Type} [Field α]

theorem transformLoop_length (m : Libm α) (ptsx ptsy : List α) (px py psi : α) :
    (transformLoop m ptsx ptsy px py psi).length = ptsx.length := by
  simp [transformLoop]

theorem ptsx_transformed_length (m : Libm α) (ptsx ptsy : List α) (px py psi : α) :
    (ptsx_transformed m ptsx ptsy px py psi).length = ptsx.length := by
  simp [ptsx_transformed, transformLoop_length]

theorem ptsy_transformed_length (m : Libm α) (ptsx ptsy : List α) (px py psi : α) :
    (ptsy_transformed m ptsx ptsy px py psi).length = ptsx.length := by
  simp [ptsy_transformed, transformLoop_length]

theorem vget_eq_getElem (v : List α) (i : Nat) (h : i < v.length) : vget v i = v[i] := by
  simp [vget, List.getD_eq_getElem?_getD, List.getElem?_eq_getElem h]

theorem transformLoop_getElem? (m : Libm α) (ptsx ptsy : List α) (px py psi : α) (i : Nat)
    (hx : i < ptsx.length) (hy : i < ptsy.length) :
    (transformLoop m ptsx ptsy px py psi)[i]?
      = some (transformBody m px py psi ptsx[i] ptsy[i]) := by
  simp [transformLoop, List.getElem?_map, List.getElem?_range hx, vget_eq_getElem, hx, hy]

/-- Entries of `ptsy` past `ptsx.size()` are never read by the loop. -/
theorem transformLoop_take (m : Libm α) (ptsx ptsy : List α) (px py psi : α) :
    transformLoop m ptsx (ptsy.take ptsx.length) px py psi
      = transformLoop m ptsx ptsy px py psi := by
  simp only [transformLoop]
  apply List.map_congr_left
  intro i hi
  have hi2 : i < ptsx.length := List.mem_range.mp hi
  simp [vget, List.getD_eq_getElem?_getD, List.getElem?_take, hi2]

/-- C4: for every pose and every pair of waypoint lists of equal length `n`,
both transformed lists have length `n`, and for every `i < n` entry `i` is
`dx*cos(-psi) - dy*sin(-psi)` resp. `dx*sin(-psi) + dy*cos(-psi)` with
`dx = ptsx[i] - px`, `dy = ptsy[i] - py`; output point `i` comes from input
point `i`. -/
theorem transform_pointwise (px py psi : ℝ) (ptsx ptsy : List ℝ)
    (h : ptsx.length = ptsy.length) :
    (ptsx_transformed (Libm.mk Real.cos Real.sin Real.arctan Real.pi) ptsx ptsy px py psi).length
        = ptsx.length
      ∧ (ptsy_transformed (Libm.mk Real.cos Real.sin Real.arctan Real.pi) ptsx ptsy px py
          psi).length = ptsy.length
      ∧ ∀ (i : Nat) (hx : i < ptsx.length) (hy : i < ptsy.length),
          (ptsx_transformed (Libm.mk Real.cos Real.sin Real.arctan Real.pi) ptsx ptsy px py
              psi)[i]?
            = some ((ptsx[i] - px) * Real.cos (-psi) - (ptsy[i] - py) * Real.sin (-psi))
          ∧ (ptsy_transformed (Libm.mk Real.cos Real.sin Real.arctan Real.pi) ptsx ptsy px py
              psi)[i]?
            = some ((ptsx[i] - px) * Real.sin (-psi) + (ptsy[i] - py) * Real.cos (-psi)) := by
  refine ⟨ptsx_transformed_length _ _ _ _ _ _, ?_, ?_⟩
  · rw [ptsy_transformed_length, h]
  · intro i hx hy
    simp [ptsx_transformed, ptsy_transformed, List.getElem?_map,
      transformLoop_getElem? _ ptsx ptsy px py psi i hx hy, transformBody]

/-- C4, at the pose `(1, 2, 0)` and the waypoints `(3, 5)`, `(4, 6)`. -/
theorem transform_pointwise_witness :
    ([3, 4] : List ℝ).length = ([5, 6] : List ℝ).length
      ∧ (ptsx_transformed (Libm.mk Real.cos Real.sin Real.arctan Real.pi) [3, 4] [5, 6] 1 2
            0)[1]?
          = some (((4 : ℝ) - 1) * Real.cos (-0) - (6 - 2) * Real.sin (-0)) :=
  ⟨rfl, ((transform_pointwise 1 2 0 [3, 4] [5, 6] rfl).2.2 1 (by decide) (by decide)).1⟩

theorem vget_ptsx_transformed (m : Libm α) (ptsx ptsy : List α) (px py psi : α) (i : Nat)
    (hx : i < ptsx.length) (hy : i < ptsy.length) :
    vget (ptsx_transformed m ptsx ptsy px py psi) i
      = (transformBody m px py psi ptsx[i] ptsy[i]).1 := by
  simp [vget, List.getD_eq_getElem?_getD, ptsx_transformed, List.getElem?_map,
    transformLoop_getElem? m ptsx ptsy px py psi i hx hy]

theorem vget_ptsy_transformed (m : Libm α) (ptsx ptsy : List α) (px py psi : α) (i : Nat)
    (hx : i < ptsx.length) (hy : i < ptsy.length) :
    vget (ptsy_transformed m ptsx ptsy px py psi) i
      = (transformBody m px py psi ptsx[i] ptsy[i]).2 := by
  simp [vget, List.getD_eq_getElem?_getD, ptsy_transformed, List.getElem?_map,
    transformLoop_getElem? m ptsx ptsy px py psi i hx hy]

/-- C5: for every pose `(px, py, psi)` and every waypoint `(ptsx[i], ptsy[i])`
the handler reads, with `lx = ptsx_transformed(i)` and `ly = ptsy_transformed(i)`
the local point it stores, rotating back by `+psi` and translating back
recovers the waypoint: `lx*cos psi - ly*sin psi + px = ptsx[i]` and
`lx*sin psi + ly*cos psi + py = ptsy[i]`. -/
theorem transform_round_trip (px py psi : ℝ) (ptsx ptsy : List ℝ) (i : Nat)
    (hx : i < ptsx.length) (hy : i < ptsy.length) :
    vget (ptsx_transformed (Libm.mk Real.cos Real.sin Real.arctan Real.pi) ptsx ptsy px py
          psi) i * Real.cos psi
        - vget (ptsy_transformed (Libm.mk Real.cos Real.sin Real.arctan Real.pi) ptsx ptsy px
          py psi) i * Real.sin psi + px = ptsx[i]
      ∧ vget (ptsx_transformed (Libm.mk Real.cos Real.sin Real.arctan Real.pi) ptsx ptsy px py
          psi) i * Real.sin psi
        + vget (ptsy_transformed (Libm.mk Real.cos Real.sin Real.arctan Real.pi) ptsx ptsy px
          py psi) i * Real.cos psi + py = ptsy[i] := by
  rw [vget_ptsx_transformed _ ptsx ptsy px py psi i hx hy,
    vget_ptsy_transformed _ ptsx ptsy px py psi i hx hy]
  simp only [transformBody, zero_sub, Real.cos_neg, Real.sin_neg]
  have hsc := Real.sin_sq_add_cos_sq psi
  constructor
  · linear_combination (ptsx[i] - px) * hsc
  · linear_combination (ptsy[i] - py) * hsc

/-- C5, at the pose `(1, 2, 0)` and the single waypoint `(3, 5)`. -/
theorem transform_round_trip_witness :
    vget (ptsx_transformed (Libm.mk Real.cos Real.sin Real.arctan Real.pi) [3] [5] 1 2 0) 0
          * Real.cos 0
        - vget (ptsy_transformed (Libm.mk Real.cos Real.sin Real.arctan Real.pi) [3] [5] 1 2
          0) 0 * Real.sin 0 + (1 : ℝ) = ([3] : List ℝ)[0]
      ∧ vget (ptsx_transformed (Libm.mk Real.cos Real.sin Real.arctan Real.pi) [3] [5] 1 2 0) 0
          * Real.sin 0
        + vget (ptsy_transformed (Libm.mk Real.cos Real.sin Real.arctan Real.pi) [3] [5] 1 2
          0) 0 * Real.cos 0 + (2 : ℝ) = ([5] : List ℝ)[0] :=
  transform_round_trip 1 2 0 [3] [5] 0 (by decide) (by decide)

end Transform

/-! ## Result packaging -/

section Packaging

/-- C6: for every solution vector `d :: a :: rest` with steering entry `d` in
`[-25*pi/180, 25*pi/180]` and throttle entry `a` in `[-1, 1]`: the steering
bound `deg2rad(25)` is `25*pi/180`, the emitted `steering_angle` is
`d / (25*pi/180)` and lies in `[-1, 1]`, and the emitted `throttle` is `a`,
hence in `[-1, 1]`. -/
theorem command_range (coeffs rest : List ℝ) (d a : ℝ)
    (hd : -(25 * Real.pi / 180) ≤ d ∧ d ≤ 25 * Real.pi / 180)
    (ha : -1 ≤ a ∧ a ≤ 1) :
    deg2rad (Libm.mk Real.cos Real.sin Real.arctan Real.pi) 25 = 25 * Real.pi / 180
      ∧ (package (Libm.mk Real.cos Real.sin Real.arctan Real.pi) coeffs
          (d :: a :: rest)).steering_angle = d / (25 * Real.pi / 180)
      ∧ -1 ≤ (package (Libm.mk Real.cos Real.sin Real.arctan Real.pi) coeffs
          (d :: a :: rest)).steering_angle
      ∧ (package (Libm.mk Real.cos Real.sin Real.arctan Real.pi) coeffs
          (d :: a :: rest)).steering_angle ≤ 1
      ∧ (package (Libm.mk Real.cos Real.sin Real.arctan Real.pi) coeffs
          (d :: a :: rest)).throttle = a
      ∧ -1 ≤ (package (Libm.mk Real.cos Real.sin Real.arctan Real.pi) coeffs
          (d :: a :: rest)).throttle
      ∧ (package (Libm.mk Real.cos Real.sin Real.arctan Real.pi) coeffs
          (d :: a :: rest)).throttle ≤ 1 := by
  have hpos : (0 : ℝ) < 25 * Real.pi / 180 := by positivity
  have hdeg : deg2rad (Libm.mk Real.cos Real.sin Real.arctan Real.pi) 25
      = 25 * Real.pi / 180 := by
    simp only [deg2rad, pi]
  have hsteer : (package (Libm.mk Real.cos Real.sin Real.arctan Real.pi) coeffs
      (d :: a :: rest)).steering_angle = d / (25 * Real.pi / 180) := by
    simp only [package, steer_value, hdeg, vget, List.getD_cons_zero]
  have hthr : (package (Libm.mk Real.cos Real.sin Real.arctan Real.pi) coeffs
      (d :: a :: rest)).throttle = a := by
    simp only [package, throttle_value, vget, List.getD_cons_zero, List.getD_cons_succ]
  rw [hsteer, hthr]
  refine ⟨hdeg, rfl, ?_, ?_, rfl, ha.1, ha.2⟩
  · rw [le_div_iff₀ hpos]; linarith [hd.1]
  · rw [div_le_iff₀ hpos]; linarith [hd.2]

/-- C6, at the solution vector `[1/5, 1/2, 3, 4]`: the steering entry `1/5` is
inside the bound `25*pi/180`, and the emitted steering is `(1/5) / (25*pi/180)`. -/
theorem command_range_witness :
    (-(25 * Real.pi / 180) ≤ (1 / 5 : ℝ) ∧ (1 / 5 : ℝ) ≤ 25 * Real.pi / 180)
      ∧ (package (Libm.mk Real.cos Real.sin Real.arctan Real.pi) []
          [1 / 5, 1 / 2, 3, 4]).steering_angle = (1 / 5) / (25 * Real.pi / 180)
      ∧ (package (Libm.mk Real.cos Real.sin Real.arctan Real.pi) []
          [1 / 5, 1 / 2, 3, 4]).steering_angle ≤ 1
      ∧ (package (Libm.mk Real.cos Real.sin Real.arctan Real.pi) []
          [1 / 5, 1 / 2, 3, 4]).throttle = 1 / 2 :=
  have hb : -(25 * Real.pi / 180) ≤ (1 / 5 : ℝ) ∧ (1 / 5 : ℝ) ≤ 25 * Real.pi / 180 := by
    have h3 := Real.pi_gt_three
    constructor <;> linarith
  have h := command_range [] [3, 4] (1 / 5) (1 / 2) hb (by constructor <;> norm_num)
  ⟨hb, h.2.1, h.2.2.2.1, h.2.2.2.2.1⟩

end Packaging

/-! ## Trajectory split and reference line -/

section Trajectory

variable {α : Type}

theorem interleave_length (pts : List (α × α)) :
    (interleave pts).length = 2 * pts.length := by
  induction pts with
  | nil => rfl
  | cons p rest ih => simp only [interleave, List.length_cons, ih]; omega

variable [Field α]

theorem vget_append_length (pre : List α) (x : α) (rest : List α) :
    vget (pre ++ x :: rest) pre.length = x := by
  simp only [vget, List.getD_eq_getElem?_getD, List.getElem?_append_right (le_refl pre.length),
    Nat.sub_self, List.getElem?_cons_zero, Option.getD_some]

theorem vget_append_length_succ (pre : List α) (x y : α) (rest : List α) :
    vget (pre ++ x :: y :: rest) (pre.length + 1) = y := by
  have h : pre ++ x :: y :: rest = (pre ++ [x]) ++ y :: rest := by simp
  have hl : pre.length + 1 = (pre ++ [x]).length := by simp
  rw [h, hl]
  exact vget_append_length _ _ _

/-- The loop started at an even index `pre.length` with accumulators `acc`
appends the remaining x entries to the first and the y entries to the second. -/
theorem mpcStep_foldl (pts : List (α × α)) :
    ∀ (pre : List α) (acc : List α × List α), pre.length % 2 = 0 →
      (List.range' pre.length (2 * pts.length)).foldl (mpcStep (pre ++ interleave pts)) acc
        = (acc.1 ++ pts.map Prod.fst, acc.2 ++ pts.map Prod.snd) := by
  induction pts with
  | nil => intro pre acc _; simp
  | cons p rest ih =>
    intro pre acc hpre
    have hlen : 2 * (p :: rest).length = (2 * rest.length + 1) + 1 := by
      simp only [List.length_cons]; omega
    have hodd : ¬ (pre.length + 1) % 2 = 0 := by omega
    have hvars : pre ++ p.1 :: p.2 :: interleave rest
        = (pre ++ [p.1, p.2]) ++ interleave rest := by simp
    have hpre2 : pre.length + 1 + 1 = (pre ++ [p.1, p.2]).length := by simp
    have hpre3 : (pre ++ [p.1, p.2]).length % 2 = 0 := by
      simp only [List.length_append, List.length_cons, List.length_nil]; omega
    rw [hlen, List.range'_succ, List.foldl_cons, List.range'_succ, List.foldl_cons]
    simp only [interleave]
    have s1 : mpcStep (pre ++ p.1 :: p.2 :: interleave rest) acc pre.length
        = (acc.1 ++ [p.1], acc.2) := by
      simp only [mpcStep, if_pos hpre, vget_append_length]
    have s2 : mpcStep (pre ++ p.1 :: p.2 :: interleave rest) (acc.1 ++ [p.1], acc.2)
        (pre.length + 1) = (acc.1 ++ [p.1], acc.2 ++ [p.2]) := by
      simp only [mpcStep, if_neg hodd, vget_append_length_succ]
    rw [s1, s2, hvars, hpre2, ih _ _ hpre3]
    simp

end Trajectory

section TrajectoryClaims

/-- C7: for every `N >= 0` and every solution vector
`[delta_0, a_0, x_1, y_1, ..., x_N, y_N]`, the loop leaves
`mpc_x_vals = [x_1, ..., x_N]` and `mpc_y_vals = [y_1, ..., y_N]`, each of
length `N` and in step order; the actuator entries `delta_0`, `a_0` are in
neither. -/
theorem trajectory_split (d a : ℝ) (pts : List (ℝ × ℝ)) :
    (d :: a :: interleave pts).length = 2 + 2 * pts.length
      ∧ mpc_x_vals (d :: a :: interleave pts) = pts.map Prod.fst
      ∧ mpc_y_vals (d :: a :: interleave pts) = pts.map Prod.snd
      ∧ (mpc_x_vals (d :: a :: interleave pts)).length = pts.length
      ∧ (mpc_y_vals (d :: a :: interleave pts)).length = pts.length := by
  have hl : (d :: a :: interleave pts).length - 2 = 2 * pts.length := by
    simp [interleave_length]
  have h := mpcStep_foldl pts [d, a] ([], []) (by simp)
  have hx : mpc_x_vals (d :: a :: interleave pts) = pts.map Prod.fst := by
    simp only [mpc_x_vals, mpcLoop, hl]
    simpa using congrArg Prod.fst h
  have hy : mpc_y_vals (d :: a :: interleave pts) = pts.map Prod.snd := by
    simp only [mpc_y_vals, mpcLoop, hl]
    simpa using congrArg Prod.snd h
  refine ⟨?_, hx, hy, ?_, ?_⟩
  · simp only [List.length_cons, interleave_length]; omega
  · rw [hx, List.length_map]
  · rw [hy, List.length_map]

/-- C8: for every coefficient vector, `next_x_vals` and `next_y_vals` have
exactly 25 entries, `next_x_vals[i] = 2.5*i` and
`next_y_vals[i] = polyeval(coeffs, next_x_vals[i])` for `i = 0 .. 24`; the
first sample is at `x = 0`, consecutive samples are `2.5` apart, and the
message carries the same sample whatever the solution vector is. -/
theorem reference_line_sample (coeffs : List ℝ) :
    (next_x_vals : List ℝ).length = 25
      ∧ (next_y_vals coeffs).length = 25
      ∧ (∀ i : Fin 25, (next_x_vals : List ℝ)[i.val]? = some (2.5 * (i.val : ℝ))
          ∧ (next_y_vals coeffs)[i.val]? = some (polyeval coeffs (2.5 * (i.val : ℝ)))
          ∧ (next_y_vals coeffs)[i.val]?
              = ((next_x_vals : List ℝ)[i.val]?).map (polyeval coeffs))
      ∧ (next_x_vals : List ℝ)[0]? = some 0
      ∧ (∀ i : Fin 24, vget (next_x_vals : List ℝ) (i.val + 1) - vget next_x_vals i.val = 2.5)
      ∧ ∀ vars : List ℝ,
          (package (Libm.mk Real.cos Real.sin Real.arctan Real.pi) coeffs vars).next_x
              = next_x_vals
            ∧ (package (Libm.mk Real.cos Real.sin Real.arctan Real.pi) coeffs vars).next_y
              = next_y_vals coeffs := by
  have hx : ∀ i : Nat, i < 25 →
      (next_x_vals : List ℝ)[i]? = some (2.5 * (i : ℝ)) := by
    intro i hi
    simp only [next_x_vals, num_points, poly_inc, List.getElem?_map, List.getElem?_range hi,
      Option.map_some']
  have hy : ∀ i : Nat, i < 25 →
      (next_y_vals coeffs)[i]? = some (polyeval coeffs (2.5 * (i : ℝ))) := by
    intro i hi
    simp only [next_y_vals, num_points, poly_inc, List.getElem?_map, List.getElem?_range hi,
      Option.map_some']
  refine ⟨by simp only [next_x_vals, num_points, List.length_map, List.length_range],
    by simp only [next_y_vals, num_points, List.length_map, List.length_range], ?_, ?_, ?_, ?_⟩
  · intro i
    refine ⟨hx i.val i.isLt, hy i.val i.isLt, ?_⟩
    rw [hx i.val i.isLt, hy i.val i.isLt]; rfl
  · have h0 := hx 0 (by decide)
    simpa using h0
  · intro i
    have h1 := hx (i.val + 1) (by omega)
    have h2 := hx i.val (by omega)
    simp only [vget, List.getD_eq_getElem?_getD, h1, h2, Option.getD_some]
    push_cast
    ring
  · intro vars
    exact ⟨rfl, rfl⟩

end TrajectoryClaims

/-! ## Rejected cycles -/

section Rejection

variable {α : Type} [Field α]

/-- The handler's result is decided by the fit alone: it is a message when
`ptsx` has at least `3 + 1` entries and the fit's failure otherwise. -/
theorem onTelemetry_eq (m : Libm α) (lsq : List α → List α → Nat → List α)
    (Solve : List α → List α → List α) (t : Telemetry α) :
    onTelemetry m lsq Solve t
      = if t.ptsx.length < 4 then Except.error CycleError.underdeterminedFit
        else
          Except.ok (package m
            (lsq (ptsx_transformed m t.ptsx t.ptsy t.x t.y t.psi)
              (ptsy_transformed m t.ptsx t.ptsy t.x t.y t.psi) 3)
            (Solve (state m t.speed t.steering_angle t.throttle
                (lsq (ptsx_transformed m t.ptsx t.ptsy t.x t.y t.psi)
                  (ptsy_transformed m t.ptsx t.ptsy t.x t.y t.psi) 3))
              (lsq (ptsx_transformed m t.ptsx t.ptsy t.x t.y t.psi)
                (ptsy_transformed m t.ptsx t.ptsy t.x t.y t.psi) 3))) := by
  simp only [onTelemetry, polyfit, ptsx_transformed_length]
  by_cases h : t.ptsx.length < 4
  · simp only [show t.ptsx.length < 3 + 1 from h, h, if_true]
    rfl
  · simp only [show ¬ t.ptsx.length < 3 + 1 from h, h, if_false]
    rfl

end Rejection

section RejectionClaims

/-- C10 fails as stated: the event with `ptsx = [0, 1, 2, 3]` and
`ptsy = [0, 0, 0, 0, 7]` has waypoint arrays of different lengths, and for
every least-squares solve and optimizer the handler produces a message, the
same one as for the event with `ptsy = [0, 0, 0, 0]`. -/
theorem mismatched_lengths_not_rejected :
    (Telemetry.mk ([0, 1, 2, 3] : List ℝ) [0, 0, 0, 0, 7] 0 0 0 10 0 0).ptsx.length
        ≠ (Telemetry.mk ([0, 1, 2, 3] : List ℝ) [0, 0, 0, 0, 7] 0 0 0 10 0 0).ptsy.length
      ∧ (∀ (lsq : List ℝ → List ℝ → Nat → List ℝ) (Solve : List ℝ → List ℝ → List ℝ),
          (∃ msg : SteerMsg ℝ,
            onTelemetry (Libm.mk Real.cos Real.sin Real.arctan Real.pi) lsq Solve
                (Telemetry.mk [0, 1, 2, 3] [0, 0, 0, 0, 7] 0 0 0 10 0 0) = Except.ok msg)
          ∧ onTelemetry (Libm.mk Real.cos Real.sin Real.arctan Real.pi) lsq Solve
                (Telemetry.mk [0, 1, 2, 3] [0, 0, 0, 0, 7] 0 0 0 10 0 0)
              = onTelemetry (Libm.mk Real.cos Real.sin Real.arctan Real.pi) lsq Solve
                (Telemetry.mk [0, 1, 2, 3] [0, 0, 0, 0] 0 0 0 10 0 0)) := by
  refine ⟨by decide, ?_⟩
  intro lsq Solve
  constructor
  · rw [onTelemetry_eq, if_neg (by decide)]
    exact ⟨_, rfl⟩
  · rw [onTelemetry_eq, onTelemetry_eq]
    have hl : transformLoop (Libm.mk Real.cos Real.sin Real.arctan Real.pi)
        [0, 1, 2, 3] [0, 0, 0, 0] (0 : ℝ) 0 0
        = transformLoop (Libm.mk Real.cos Real.sin Real.arctan Real.pi)
          [0, 1, 2, 3] [0, 0, 0, 0, 7] (0 : ℝ) 0 0 :=
      transformLoop_take _ [0, 1, 2, 3] [0, 0, 0, 0, 7] 0 0 0
    simp only [ptsx_transformed, ptsy_transformed, hl]

/-- C10 as amended: the handler never compares the two lengths.  For every
telemetry event whose `ptsy` is longer than `ptsx`, its result is the result on
the equal-length event with `ptsy` cut to the first `ptsx.size()` entries, and
that result is a message exactly when `ptsx` has at least 4 entries. -/
theorem surplus_ptsy_ignored (lsq : List ℝ → List ℝ → Nat → List ℝ)
    (Solve : List ℝ → List ℝ → List ℝ) (t : Telemetry ℝ)
    (h : t.ptsx.length < t.ptsy.length) :
    (t.ptsy.take t.ptsx.length).length = t.ptsx.length
      ∧ onTelemetry (Libm.mk Real.cos Real.sin Real.arctan Real.pi) lsq Solve t
        = onTelemetry (Libm.mk Real.cos Real.sin Real.arctan Real.pi) lsq Solve
            (Telemetry.mk t.ptsx (t.ptsy.take t.ptsx.length) t.x t.y t.psi t.speed
              t.steering_angle t.throttle)
      ∧ ((∃ msg : SteerMsg ℝ,
            onTelemetry (Libm.mk Real.cos Real.sin Real.arctan Real.pi) lsq Solve t
              = Except.ok msg) ↔ 4 ≤ t.ptsx.length) := by
  refine ⟨?_, ?_, ?_⟩
  · rw [List.length_take]
    omega
  · rw [onTelemetry_eq, onTelemetry_eq]
    simp only [ptsx_transformed, ptsy_transformed, transformLoop_take]
  · rw [onTelemetry_eq]
    by_cases h4 : t.ptsx.length < 4
    · rw [if_pos h4]
      constructor
      · rintro ⟨msg, hmsg⟩
        cases hmsg
      · intro h'
        omega
    · rw [if_neg h4]
      exact ⟨fun _ => by omega, fun _ => ⟨_, rfl⟩⟩

/-- C10 as amended, at the event with `ptsx = [0, 1, 2, 3]`,
`ptsy = [0, 0, 0, 0, 7]`. -/
theorem surplus_ptsy_ignored_witness :
    (Telemetry.mk ([0, 1, 2, 3] : List ℝ) [0, 0, 0, 0, 7] 0 0 0 10 0 0).ptsx.length
        < (Telemetry.mk ([0, 1, 2, 3] : List ℝ) [0, 0, 0, 0, 7] 0 0 0 10 0 0).ptsy.length
      ∧ onTelemetry (Libm.mk Real.cos Real.sin Real.arctan Real.pi)
          (fun _ _ _ => [0, 0, 0, 0]) (fun _ _ => [0, 1])
          (Telemetry.mk ([0, 1, 2, 3] : List ℝ) [0, 0, 0, 0, 7] 0 0 0 10 0 0)
        = onTelemetry (Libm.mk Real.cos Real.sin Real.arctan Real.pi)
          (fun _ _ _ => [0, 0, 0, 0]) (fun _ _ => [0, 1])
          (Telemetry.mk ([0, 1, 2, 3] : List ℝ)
            (([0, 0, 0, 0, 7] : List ℝ).take ([0, 1, 2, 3] : List ℝ).length) 0 0 0 10 0 0) :=
  ⟨by decide,
    (surplus_ptsy_ignored (fun _ _ _ => [0, 0, 0, 0]) (fun _ _ => [0, 1])
      (Telemetry.mk [0, 1, 2, 3] [0, 0, 0, 0, 7] 0 0 0 10 0 0) (by decide)).2.1⟩

end RejectionClaims

end MPCProject
